import Mathlib

/-!
Boundary index mapping of `toolbox/Shoot/shoot_boundary.c`

A shallow embedding of the two index-wrapping functions `neumann_boundary`
and `circulant_boundary`, of the module state (`bound`, `bound_type`) and
of the accessors `set_bound` / `get_bound`.

Conventions of the embedding.

* Each wrapping function has two readings.  `circulant_boundary64` and
  `neumann_boundary64` are the functions with their machine types:
  `mwSignedIndex` is a 64-bit signed integer, `mwSize` a 64-bit unsigned one and
  `signed` a 32-bit `int`; an operation that C leaves undefined yields `none`.
  The general statements are made about these.  `circulant_boundary` and
  `neumann_boundary` are the same C expressions over unbounded integers, where
  the conversions `mwSize → mwSignedIndex` and `(signed)m` change nothing.  They
  return what the code returns for `m ≤ 2^31 - 1` (`circulant_boundary64_eq`),
  respectively for `m ≤ 2^62 - 1` and `i > INT64_MIN` (`neumann_boundary64_eq`),
  and not beyond; they stand for the two functions as values of the pointer
  `bound` and in the worked values at `m = 4`.
* The C operator `%` truncates towards zero (the remainder takes the sign of
  the dividend); it is `Int.tmod`, not the Euclidean `%` of Lean.
* A remainder by zero is undefined in C: it is `none` in the fixed-width
  functions, while `Int.tmod` returns the dividend.  Every statement about the
  wrapping functions assumes `m > 0`, the precondition of the callers.
* The codes `BOUND_CIRCULANT` and `BOUND_NEUMANN` come from
  `shoot_boundary.h`; their values are parameters of the embedding.
* `mexErrMsgTxt` leaves `set_bound` without returning to its caller, but the
  statics of the module stay in memory: `set_bound` returns the state after
  the call together with the reported message, if any.
-/

namespace ShootBoundary

/-- Neumann boundary condition: `neumann_boundary(i, m)`, read over unbounded
integers.  It returns what the code returns for `0 < m ≤ 2^62 - 1` and
`INT64_MIN < i ≤ INT64_MAX`; the function with its machine types is
`neumann_boundary64`. -/
def neumann_boundary (i : Int) (m : Nat) : Int :=
  let m2 : Int := ((m * 2 : Nat) : Int)
  let i : Int := if i < 0 then m2 - ((-i - 1).tmod m2) - 1 else i.tmod m2
  if (m : Int) ≤ i then m2 - i - 1 else i

/-- Circulant boundary condition: `circulant_boundary(i, m)`, read over
unbounded integers.  It returns what the code returns for `0 < m ≤ 2^31 - 1`,
where the cast `(signed)m` keeps `m`; the function with its machine types is
`circulant_boundary64`. -/
def circulant_boundary (i : Int) (m : Nat) : Int :=
  if i ≥ 0 then i.tmod (m : Int) else ((m : Int) + i.tmod (m : Int)).tmod (m : Int)

/-- The mutable statics of the module: the function pointer `bound` and the
integer `bound_type`. -/
structure State where
  bound : Int → Nat → Int
  bound_type : Int

/-- The statics as initialised at load time:
`bound = circulant_boundary`, `bound_type = BOUND_CIRCULANT`. -/
def initState (BOUND_CIRCULANT : Int) : State :=
  { bound := circulant_boundary, bound_type := BOUND_CIRCULANT }

/-- The call `set_bound(t)`: the state after the call, and the message handed to
`mexErrMsgTxt` when that branch is taken. -/
def set_bound (BOUND_CIRCULANT BOUND_NEUMANN : Int) (t : Int) (s : State) :
    State × Option String :=
  let s1 : State := { s with bound_type := t }
  if t = BOUND_CIRCULANT then
    ({ s1 with bound := circulant_boundary }, none)
  else if t = BOUND_NEUMANN then
    ({ s1 with bound := neumann_boundary }, none)
  else
    (s1, some "Undefined boundary condition.")

/-- The call `get_bound()`. -/
def get_bound (s : State) : Int :=
  s.bound_type

/-- A call through the pointer: `bound(i, m)` in the current state. -/
def wrap (s : State) (i : Int) (m : Nat) : Int :=
  s.bound i m

/-- The state after a sequence of `set_bound` calls, oldest first. -/
def runSetBound (BOUND_CIRCULANT BOUND_NEUMANN : Int) (ts : List Int) (s : State) : State :=
  ts.foldl (fun st t => (set_bound BOUND_CIRCULANT BOUND_NEUMANN t st).1) s

/-- Reference definition of reflective wrapping, following the words of the
specification rather than the C text: `j` is the mathematical non-negative
remainder of `i` by `2m`; a folded value `j ≥ m` is reflected back with
`2m - j - 1`, a smaller one is returned unchanged. -/
def neumann_reference (i : Int) (m : Nat) : Int :=
  let j : Int := i % (2 * (m : Int))
  if j ≥ (m : Int) then 2 * (m : Int) - j - 1 else j

/-! ### Fixed-width reading of `circulant_boundary`

`mwSignedIndex` is a 64-bit signed integer, `mwSize` a 64-bit unsigned integer
and `signed` a 32-bit signed `int`.  In `i % (signed)m` and in
`(signed)m + ...` the `int` operand is converted to the 64-bit signed type, so
every operation is a 64-bit signed one.  An operation whose result C leaves
undefined (a zero divisor, a quotient or a sum outside the 64-bit range) yields
`none`. -/

/-- The cast `(signed)m` of an `mwSize`: the low 32 bits of `m`, read in two's
complement (2147483648 is `2^31`, 4294967296 is `2^32`). -/
def castSigned (m : Nat) : Int :=
  let r : Int := ((m % 4294967296 : Nat) : Int)
  if r < 2147483648 then r else r - 4294967296

/-- The 64-bit signed `a % b`: undefined for a zero divisor and for
`INT64_MIN % -1`, whose quotient is not representable
(9223372036854775808 is `2^63`). -/
def rem64 (a b : Int) : Option Int :=
  if b = 0 then none
  else if a = -9223372036854775808 ∧ b = -1 then none
  else some (a.tmod b)

/-- The 64-bit signed `a + b`: undefined when the sum leaves the 64-bit range. -/
def add64 (a b : Int) : Option Int :=
  if -9223372036854775808 ≤ a + b ∧ a + b < 9223372036854775808 then some (a + b) else none

/-- The function `circulant_boundary(i, m)` with 64-bit operands and the 32-bit
cast of `m`: `i` is a value of the signed range and `m` a value below `2^64`. -/
def circulant_boundary64 (i : Int) (m : Nat) : Option Int :=
  if i ≥ 0 then rem64 i (castSigned m)
  else
    (rem64 i (castSigned m)).bind fun r =>
      (add64 (castSigned m) r).bind fun t =>
        rem64 t (castSigned m)

/-! ### Fixed-width reading of `neumann_boundary`

The product `m*2` is an unsigned 64-bit one and is stored in the signed `m2`;
`-i`, the subtractions and `%` are 64-bit signed operations; in `m <= i` the
signed operand is converted to the unsigned type.  As above, an operation
whose result C leaves undefined yields `none`. -/

/-- The conversion of an unsigned 64-bit value to `mwSignedIndex`, as in the
initialisation of `m2`: the value modulo `2^64`, read in two's complement
(18446744073709551616 is `2^64`). -/
def toSigned64 (n : Nat) : Int :=
  let r : Int := ((n % 18446744073709551616 : Nat) : Int)
  if r < 9223372036854775808 then r else r - 18446744073709551616

/-- The conversion of an `mwSignedIndex` to `mwSize`, as applied to `i` in the
comparison `m <= i`: the value modulo `2^64`. -/
def toUnsigned64 (a : Int) : Int :=
  a % 18446744073709551616

/-- The 64-bit signed `-a`: undefined at `INT64_MIN`. -/
def neg64 (a : Int) : Option Int :=
  if a = -9223372036854775808 then none else some (-a)

/-- The 64-bit signed `a - b`: undefined when the difference leaves the 64-bit
range. -/
def sub64 (a b : Int) : Option Int :=
  if -9223372036854775808 ≤ a - b ∧ a - b < 9223372036854775808 then some (a - b) else none

/-- The function `neumann_boundary(i, m)` with a 64-bit `mwSignedIndex` and a
64-bit `mwSize`: `i` is a value of the signed range and `m` a value below
`2^64`. -/
def neumann_boundary64 (i : Int) (m : Nat) : Option Int :=
  let m2 : Int := toSigned64 (m * 2)
  (if i < 0 then
      (neg64 i).bind fun n =>
        (sub64 n 1).bind fun k =>
          (rem64 k m2).bind fun r =>
            (sub64 m2 r).bind fun d =>
              sub64 d 1
    else rem64 i m2).bind fun j =>
    if (m : Int) ≤ toUnsigned64 j then
      (sub64 m2 j).bind fun d => sub64 d 1
    else some j

/-! ## Arithmetic of the truncating remainder -/

theorem tmod_of_nonneg {a b : Int} (ha : 0 ≤ a) (hb : 0 < b) : a.tmod b = a % b :=
  Int.tmod_eq_emod ha (Int.le_of_lt hb)

theorem tmod_of_neg_bounds {a b : Int} (ha : a < 0) (hb : 0 < b) :
    -b < a.tmod b ∧ a.tmod b ≤ 0 ∧ b ∣ (a.tmod b - a) := by
  have h1 : a.tmod b = -((-a).tmod b) := by
    rw [Int.tmod_def, Int.tmod_def, Int.neg_tdiv]
    ring
  have h2 : (-a).tmod b = (-a) % b := tmod_of_nonneg (by omega) hb
  have h3 := Int.emod_nonneg (-a) (Int.ne_of_gt hb)
  have h4 := Int.emod_lt_of_pos (-a) hb
  have h5 : b ∣ (-a - (-a) % b) := Int.dvd_sub_of_emod_eq rfl
  refine ⟨by omega, by omega, ?_⟩
  rw [h1, h2]
  have : -(-a % b) - a = -a - (-a) % b := by ring
  rw [this]
  exact h5

/-- For a positive modulus the expression of `circulant_boundary` is the
Euclidean remainder, on both branches. -/
theorem circulant_boundary_eq_emod (i : Int) (m : Nat) (hm : 0 < m) :
    circulant_boundary i m = i % (m : Int) := by
  have hb : (0 : Int) < (m : Int) := by exact_mod_cast hm
  unfold circulant_boundary
  by_cases hi : i ≥ 0
  · rw [if_pos hi]
    exact tmod_of_nonneg hi hb
  · rw [if_neg hi]
    obtain ⟨h1, h2, h3⟩ := tmod_of_neg_bounds (Int.lt_of_not_ge hi) hb
    rw [tmod_of_nonneg (by omega) hb, Int.add_comm, Int.add_emod_self]
    exact Int.emod_eq_emod_iff_emod_sub_eq_zero.mpr (Int.emod_eq_zero_of_dvd h3)

/-- The first assignment of `neumann_boundary` folds the index into
`[0, 2m)`: on both branches its value is the Euclidean remainder by `2m`. -/
theorem neumann_fold_eq_emod (i : Int) (m : Nat) (hm : 0 < m) :
    (if i < 0 then ((m * 2 : Nat) : Int) - ((-i - 1).tmod ((m * 2 : Nat) : Int)) - 1
      else i.tmod ((m * 2 : Nat) : Int)) = i % ((m * 2 : Nat) : Int) := by
  have hb : (0 : Int) < ((m * 2 : Nat) : Int) := by
    have : 0 < m * 2 := by omega
    exact_mod_cast this
  generalize ((m * 2 : Nat) : Int) = b at hb
  by_cases hi : i < 0
  · rw [if_pos hi, tmod_of_nonneg (by omega) hb]
    have h3 := Int.emod_nonneg (-i - 1) (Int.ne_of_gt hb)
    have h4 := Int.emod_lt_of_pos (-i - 1) hb
    have h5 := Int.emod_add_ediv (-i - 1) b
    symm
    have key : i % b = (b - (-i - 1) % b - 1) ∧ i / b = -((-i - 1) / b) - 1 := by
      have := (Int.ediv_emod_unique (a := i) (r := b - (-i - 1) % b - 1)
        (q := -((-i - 1) / b) - 1) hb).mpr
        ⟨by
          have e : b * (-((-i - 1) / b) - 1) = -(b * ((-i - 1) / b)) - b := by ring
          rw [e]; omega, by omega, by omega⟩
      exact ⟨this.2, this.1⟩
    exact key.1
  · rw [if_neg hi]
    exact tmod_of_nonneg (by omega) hb

/-- The result of `neumann_boundary` in terms of the Euclidean remainder. -/
theorem neumann_boundary_eq_reflect (i : Int) (m : Nat) (hm : 0 < m) :
    neumann_boundary i m =
      if (m : Int) ≤ i % ((m * 2 : Nat) : Int)
      then ((m * 2 : Nat) : Int) - i % ((m * 2 : Nat) : Int) - 1
      else i % ((m * 2 : Nat) : Int) := by
  unfold neumann_boundary
  simp only [neumann_fold_eq_emod i m hm]

/-! ## Range and period of `neumann_boundary` over the integers -/

/-- Over the integers, for `m > 0` the value of `neumann_boundary` lies in
`[0, m)`. -/
theorem neumann_boundary_int_range (i : Int) (m : Nat) (hm : 0 < m) :
    0 ≤ neumann_boundary i m ∧ neumann_boundary i m < (m : Int) := by
  have hb : (0 : Int) < ((m * 2 : Nat) : Int) := by
    have : 0 < m * 2 := by omega
    exact_mod_cast this
  have h0 := Int.emod_nonneg i (Int.ne_of_gt hb)
  have h1 := Int.emod_lt_of_pos i hb
  have h2 : ((m * 2 : Nat) : Int) = (m : Int) * 2 := by push_cast; rfl
  rw [neumann_boundary_eq_reflect i m hm]
  split <;> omega

/-- Over the integers, for `m > 0` a shift of the index by `2m` does not change
the value of `neumann_boundary`. -/
theorem neumann_boundary_int_period (i : Int) (m : Nat) (hm : 0 < m) :
    neumann_boundary (i + 2 * (m : Int)) m = neumann_boundary i m := by
  have h2 : ((m * 2 : Nat) : Int) = (m : Int) * 2 := by push_cast; rfl
  have h3 : (i + 2 * (m : Int)) % ((m * 2 : Nat) : Int) = i % ((m * 2 : Nat) : Int) := by
    rw [h2, Int.mul_comm 2 (m : Int)]
    exact Int.add_emod_self
  rw [neumann_boundary_eq_reflect _ m hm, neumann_boundary_eq_reflect _ m hm, h3]

/-! ## The mode switch: `set_bound` and `get_bound` -/

/-- The first statement of `set_bound` stores its argument in `bound_type`
before the code is examined, so `get_bound` reads back the argument of the
last call whatever branch that call took. -/
theorem get_bound_set_bound (BOUND_CIRCULANT BOUND_NEUMANN t : Int) (s : State) :
    get_bound (set_bound BOUND_CIRCULANT BOUND_NEUMANN t s).1 = t := by
  unfold set_bound get_bound
  dsimp only
  split
  · rfl
  · split <;> rfl

/-- C7: evaluation of a rejected call.  With the codes 0 (circulant) and 1
(Neumann), `set_bound(2)` in the initial state reports the error, and
`get_bound()` afterwards returns 2 where it returned 0 before the call: the
mode code read back is not the one that was active before the failed call. -/
theorem set_bound_rejected_overwrites_bound_type :
    (set_bound 0 1 2 (initState 0)).2 = some "Undefined boundary condition." ∧
      get_bound (initState 0) = 0 ∧
      get_bound (set_bound 0 1 2 (initState 0)).1 = 2 ∧
      get_bound (set_bound 0 1 2 (initState 0)).1 ≠ get_bound (initState 0) := by
  decide

/-- C8: a reachable state whose mode code is neither variant.  With the codes
0 and 1, the single call `set_bound(2)` from the initial state leads to a
state where `get_bound()` returns 2, which is neither `BOUND_CIRCULANT` nor
`BOUND_NEUMANN`. -/
theorem get_bound_reachable_not_a_variant :
    get_bound (runSetBound 0 1 [2] (initState 0)) = 2 ∧
      ¬ (get_bound (runSetBound 0 1 [2] (initState 0)) = 0 ∨
          get_bound (runSetBound 0 1 [2] (initState 0)) = 1) := by
  decide

/-- C9: `set_bound t` reports an error exactly when `t` is neither
`BOUND_CIRCULANT` nor `BOUND_NEUMANN`, the message then being
"Undefined boundary condition."; for the two recognized codes nothing is
reported. -/
theorem set_bound_error_iff (BOUND_CIRCULANT BOUND_NEUMANN t : Int) (s : State) :
    ((set_bound BOUND_CIRCULANT BOUND_NEUMANN t s).2 ≠ none ↔
        (t ≠ BOUND_CIRCULANT ∧ t ≠ BOUND_NEUMANN)) ∧
      ((set_bound BOUND_CIRCULANT BOUND_NEUMANN t s).2 ≠ none ↔
        (set_bound BOUND_CIRCULANT BOUND_NEUMANN t s).2 = some "Undefined boundary condition.") ∧
      ((set_bound BOUND_CIRCULANT BOUND_NEUMANN t s).2 = none ↔
        (t = BOUND_CIRCULANT ∨ t = BOUND_NEUMANN)) := by
  unfold set_bound
  dsimp only
  by_cases h1 : t = BOUND_CIRCULANT
  · simp only [if_pos h1]
    simp [h1]
  · by_cases h2 : t = BOUND_NEUMANN
    · simp only [if_neg h1, if_pos h2]
      simp [h2]
    · simp only [if_neg h1, if_neg h2]
      simp [h1, h2]

/-- C10: evaluation of a successful call followed by a rejected one.  With the
codes 0 and 1, from the initial state `set_bound(1)` succeeds and `get_bound()`
returns 1; the following `set_bound(2)` is rejected, and `get_bound()` then
returns 2, not the code 1 of the most recent successful call. -/
theorem get_bound_after_rejected_call_not_last_success :
    (set_bound 0 1 1 (initState 0)).2 = none ∧
      get_bound (set_bound 0 1 1 (initState 0)).1 = 1 ∧
      (set_bound 0 1 2 (set_bound 0 1 1 (initState 0)).1).2 =
        some "Undefined boundary condition." ∧
      get_bound (set_bound 0 1 2 (set_bound 0 1 1 (initState 0)).1).1 = 2 ∧
      get_bound (runSetBound 0 1 [1, 2] (initState 0)) = 2 := by
  decide

/-! ## Selection of the wrapping function -/

/-- C11: `set_bound` replaces the function used by `wrap` together with the
mode.  The two codes being distinct, from any state `set_bound(BOUND_NEUMANN)`
leaves `neumann_boundary` in `bound` and `set_bound(BOUND_CIRCULANT)` leaves
`circulant_boundary` there, `get_bound()` returns the code just set, and every
`wrap(i, m)` is computed by the function of that code. -/
theorem set_bound_selects_function (BOUND_CIRCULANT BOUND_NEUMANN : Int) (s : State)
    (hne : BOUND_CIRCULANT ≠ BOUND_NEUMANN) :
    ((set_bound BOUND_CIRCULANT BOUND_NEUMANN BOUND_NEUMANN s).1.bound = neumann_boundary ∧
        get_bound (set_bound BOUND_CIRCULANT BOUND_NEUMANN BOUND_NEUMANN s).1 = BOUND_NEUMANN ∧
        ∀ (i : Int) (m : Nat),
          wrap (set_bound BOUND_CIRCULANT BOUND_NEUMANN BOUND_NEUMANN s).1 i m =
            neumann_boundary i m) ∧
      ((set_bound BOUND_CIRCULANT BOUND_NEUMANN BOUND_CIRCULANT s).1.bound = circulant_boundary ∧
        get_bound (set_bound BOUND_CIRCULANT BOUND_NEUMANN BOUND_CIRCULANT s).1 = BOUND_CIRCULANT ∧
        ∀ (i : Int) (m : Nat),
          wrap (set_bound BOUND_CIRCULANT BOUND_NEUMANN BOUND_CIRCULANT s).1 i m =
            circulant_boundary i m) := by
  have hn : ¬ BOUND_NEUMANN = BOUND_CIRCULANT := fun h => hne h.symm
  unfold set_bound wrap get_bound
  dsimp only
  rw [if_neg hn, if_pos rfl, if_pos rfl]
  exact ⟨⟨rfl, rfl, fun _ _ => rfl⟩, ⟨rfl, rfl, fun _ _ => rfl⟩⟩

/-- An instance with the codes 0 and 1, from the initial state. -/
theorem set_bound_selects_function_witness :
    (0 : Int) ≠ 1 ∧
      (set_bound 0 1 1 (initState 0)).1.bound = neumann_boundary ∧
      (set_bound 0 1 0 (initState 0)).1.bound = circulant_boundary :=
  ⟨by decide,
    (set_bound_selects_function 0 1 (initState 0) (by decide)).1.1,
    (set_bound_selects_function 0 1 (initState 0) (by decide)).2.1⟩

/-- C12: in the initial state the active mode is circulant: `get_bound()`
returns `BOUND_CIRCULANT`, the function held in `bound` is
`circulant_boundary`, and `wrap` computes it. -/
theorem initState_is_circulant (BOUND_CIRCULANT : Int) :
    get_bound (initState BOUND_CIRCULANT) = BOUND_CIRCULANT ∧
      (initState BOUND_CIRCULANT).bound = circulant_boundary ∧
      ∀ (i : Int) (m : Nat), wrap (initState BOUND_CIRCULANT) i m = circulant_boundary i m :=
  ⟨rfl, rfl, fun _ _ => rfl⟩

/-! ## Worked values for `m = 4` -/

/-- C13: the circulant scenarios for `m = 4`: the indices -1, 4, 7 and -5 are
wrapped to 3, 0, 3 and 3. -/
theorem circulant_boundary_scenarios :
    circulant_boundary (-1) 4 = 3 ∧ circulant_boundary 4 4 = 0 ∧
      circulant_boundary 7 4 = 3 ∧ circulant_boundary (-5) 4 = 3 := by
  decide

/-- C14: the Neumann scenarios for `m = 4`: the indices -1, 4, -2 and 5 are
wrapped to 0, 3, 1 and 2. -/
theorem neumann_boundary_scenarios :
    neumann_boundary (-1) 4 = 0 ∧ neumann_boundary 4 4 = 3 ∧
      neumann_boundary (-2) 4 = 1 ∧ neumann_boundary 5 4 = 2 := by
  decide

/-- C15, as stated, fails: read positionally the pattern asks for
`neumann_boundary (-2) 4 = 2` and `neumann_boundary (-1) 4 = 1`, while the
function returns 1 and 0 there. -/
theorem neumann_boundary_pattern_as_stated_fails :
    ¬ (neumann_boundary (-2) 4 = 2 ∧ neumann_boundary (-1) 4 = 1 ∧
        neumann_boundary 0 4 = 0 ∧ neumann_boundary 1 4 = 1 ∧
        neumann_boundary 2 4 = 2 ∧ neumann_boundary 3 4 = 3 ∧
        neumann_boundary 4 4 = 3 ∧ neumann_boundary 5 4 = 2 ∧
        neumann_boundary 6 4 = 1 ∧ neumann_boundary 7 4 = 0) := by
  decide

/-- C15, amended: for `m = 4` the indices -2, -1, 0, 1, 2, 3, 4, 5, 6, 7 are
wrapped to 1, 0, 0, 1, 2, 3, 3, 2, 1, 0: both edge samples are repeated. -/
theorem neumann_boundary_pattern :
    neumann_boundary (-2) 4 = 1 ∧ neumann_boundary (-1) 4 = 0 ∧
      neumann_boundary 0 4 = 0 ∧ neumann_boundary 1 4 = 1 ∧
      neumann_boundary 2 4 = 2 ∧ neumann_boundary 3 4 = 3 ∧
      neumann_boundary 4 4 = 3 ∧ neumann_boundary 5 4 = 2 ∧
      neumann_boundary 6 4 = 1 ∧ neumann_boundary 7 4 = 0 := by
  decide

/-! ## Reference definition, mirror symmetry and unit steps over the integers -/

/-- Reflecting an index about `-1/2` reflects its Euclidean remainder inside
`[0, b)`. -/
theorem emod_neg_one_sub (i b : Int) (hb : 0 < b) : (-1 - i) % b = b - 1 - i % b := by
  have h0 := Int.emod_nonneg i (Int.ne_of_gt hb)
  have h1 := Int.emod_lt_of_pos i hb
  have h2 := Int.emod_add_ediv i b
  have e : b * (-(i / b) - 1) = -(b * (i / b)) - b := by ring
  exact ((Int.ediv_emod_unique (a := -1 - i) (r := b - 1 - i % b) (q := -(i / b) - 1) hb).mpr
    ⟨by rw [e]; omega, by omega, by omega⟩).2

/-- The Euclidean remainder of the next index: one more, or back to zero from
`b - 1`. -/
theorem emod_succ_cases (i b : Int) (hb : 0 < b) :
    (i % b + 1 < b ∧ (i + 1) % b = i % b + 1) ∨ (i % b = b - 1 ∧ (i + 1) % b = 0) := by
  have h0 := Int.emod_nonneg i (Int.ne_of_gt hb)
  have h1 := Int.emod_lt_of_pos i hb
  have h2 := Int.emod_add_ediv i b
  by_cases hlt : i % b + 1 < b
  · left
    exact ⟨hlt, ((Int.ediv_emod_unique (a := i + 1) (r := i % b + 1) (q := i / b) hb).mpr
      ⟨by omega, by omega, hlt⟩).2⟩
  · right
    have e : b * (i / b + 1) = b * (i / b) + b := by ring
    exact ⟨by omega, ((Int.ediv_emod_unique (a := i + 1) (r := 0) (q := i / b + 1) hb).mpr
      ⟨by rw [e]; omega, by omega, hb⟩).2⟩

/-- Over the integers, for `m > 0` the function `neumann_boundary` is the
reference definition, and for `i < 0` the fold of the C text is the
non-negative remainder of `i` by `2m`. -/
theorem neumann_boundary_int_eq_reference (i : Int) (m : Nat) (hm : 0 < m) :
    neumann_boundary i m = neumann_reference i m ∧
      (i < 0 →
        2 * (m : Int) - ((-i - 1).tmod (2 * (m : Int))) - 1 = i % (2 * (m : Int))) := by
  have h2 : ((m * 2 : Nat) : Int) = 2 * (m : Int) := by push_cast; ring
  have hf := neumann_fold_eq_emod i m hm
  rw [h2] at hf
  constructor
  · rw [neumann_boundary_eq_reflect i m hm, h2]
    rfl
  · intro hi
    rw [if_pos hi] at hf
    exact hf

/-- Over the integers, for `m > 0` the indices `-1 - i` and `2m - 1 - i` have the
value of `i` under `neumann_boundary`. -/
theorem neumann_boundary_int_mirror (i : Int) (m : Nat) (hm : 0 < m) :
    neumann_boundary (-1 - i) m = neumann_boundary i m ∧
      neumann_boundary (2 * (m : Int) - 1 - i) m = neumann_boundary i m := by
  have hb : (0 : Int) < ((m * 2 : Nat) : Int) := by
    have : 0 < m * 2 := by omega
    exact_mod_cast this
  have h2 : ((m * 2 : Nat) : Int) = (m : Int) * 2 := by push_cast; rfl
  have h0 := Int.emod_nonneg i (Int.ne_of_gt hb)
  have h1 := Int.emod_lt_of_pos i hb
  have hr := emod_neg_one_sub i _ hb
  have hs : (2 * (m : Int) - 1 - i) % ((m * 2 : Nat) : Int) =
      (-1 - i) % ((m * 2 : Nat) : Int) := by
    have e : 2 * (m : Int) - 1 - i = (-1 - i) + ((m * 2 : Nat) : Int) := by rw [h2]; ring
    rw [e]
    exact Int.add_emod_self
  have key : neumann_boundary (-1 - i) m = neumann_boundary i m := by
    rw [neumann_boundary_eq_reflect _ m hm, neumann_boundary_eq_reflect _ m hm, hr]
    split <;> split <;> omega
  refine ⟨key, ?_⟩
  rw [← key, neumann_boundary_eq_reflect _ m hm, neumann_boundary_eq_reflect (-1 - i) m hm, hs]

/-- C18: a rejected `set_bound` leaves the wrapping function untouched but not
the mode code: for every state and every code `t` that is neither
`BOUND_CIRCULANT` nor `BOUND_NEUMANN`, after `set_bound(t)` the pointer `bound`
is the one held before the call, so `wrap` computes what it computed before,
while `get_bound()` returns `t`. -/
theorem set_bound_rejected_keeps_bound (BOUND_CIRCULANT BOUND_NEUMANN t : Int) (s : State)
    (h1 : t ≠ BOUND_CIRCULANT) (h2 : t ≠ BOUND_NEUMANN) :
    (set_bound BOUND_CIRCULANT BOUND_NEUMANN t s).1.bound = s.bound ∧
      (∀ (i : Int) (m : Nat),
        wrap (set_bound BOUND_CIRCULANT BOUND_NEUMANN t s).1 i m = wrap s i m) ∧
      get_bound (set_bound BOUND_CIRCULANT BOUND_NEUMANN t s).1 = t := by
  unfold set_bound wrap get_bound
  dsimp only
  rw [if_neg h1, if_neg h2]
  exact ⟨rfl, fun _ _ => rfl, rfl⟩

/-- An instance with the codes 0 and 1: the call `set_bound(2)` in the initial
state. -/
theorem set_bound_rejected_keeps_bound_witness :
    (2 : Int) ≠ 0 ∧ (2 : Int) ≠ 1 ∧
      (set_bound 0 1 2 (initState 0)).1.bound = (initState 0).bound ∧
      (∀ (i : Int) (m : Nat),
        wrap (set_bound 0 1 2 (initState 0)).1 i m = wrap (initState 0) i m) ∧
      get_bound (set_bound 0 1 2 (initState 0)).1 = 2 :=
  ⟨by decide, by decide,
    set_bound_rejected_keeps_bound 0 1 2 (initState 0) (by decide) (by decide)⟩

/-- Over the integers, for `m > 0` the values of `neumann_boundary` at `i + 1`
and at `i` differ by at most 1, while `circulant_boundary` takes the values
`m - 1` and 0 at the indices `m - 1` and `m`. -/
theorem neumann_boundary_int_step (i : Int) (m : Nat) (hm : 0 < m) :
    |neumann_boundary (i + 1) m - neumann_boundary i m| ≤ 1 ∧
      circulant_boundary ((m : Int) - 1) m = (m : Int) - 1 ∧
      circulant_boundary (m : Int) m = 0 := by
  have hm0 : (0 : Int) < (m : Int) := by exact_mod_cast hm
  have hb : (0 : Int) < ((m * 2 : Nat) : Int) := by
    have : 0 < m * 2 := by omega
    exact_mod_cast this
  have h2 : ((m * 2 : Nat) : Int) = (m : Int) * 2 := by push_cast; rfl
  have h0 := Int.emod_nonneg i (Int.ne_of_gt hb)
  have h1 := Int.emod_lt_of_pos i hb
  refine ⟨?_, ?_, ?_⟩
  · rw [neumann_boundary_eq_reflect _ m hm, neumann_boundary_eq_reflect _ m hm, abs_le]
    rcases emod_succ_cases i _ hb with ⟨_, hs⟩ | ⟨_, hs⟩ <;> rw [hs] <;>
      split <;> split <;> omega
  · rw [circulant_boundary_eq_emod _ m hm]
    exact Int.emod_eq_of_lt (by omega) (by omega)
  · rw [circulant_boundary_eq_emod _ m hm]
    exact Int.emod_self

/-! ## Fixed-width agreement for `circulant_boundary` -/

/-- A dimension below `2^31` is left unchanged by the cast `(signed)m`. -/
theorem castSigned_of_lt (m : Nat) (h : m ≤ 2147483647) : castSigned m = (m : Int) := by
  unfold castSigned
  have e : m % 4294967296 = m := Nat.mod_eq_of_lt (by omega)
  rw [e]
  dsimp only
  exact if_pos (by omega)

/-- On positive dimensions below `2^31` every operation of the fixed-width
function is defined and its result is that of the function read over the
integers: the divisor is positive, and the only sum lies in `(0, m]`. -/
theorem circulant_boundary64_eq (i : Int) (m : Nat) (hm : 0 < m) (hmax : m ≤ 2147483647) :
    circulant_boundary64 i m = some (circulant_boundary i m) := by
  have hb : (0 : Int) < (m : Int) := by exact_mod_cast hm
  have hmx : (m : Int) ≤ 2147483647 := by exact_mod_cast hmax
  have hrem : ∀ a : Int, rem64 a (m : Int) = some (a.tmod (m : Int)) := by
    intro a
    unfold rem64
    rw [if_neg (by omega), if_neg (by omega)]
  unfold circulant_boundary64 circulant_boundary
  rw [castSigned_of_lt m hmax]
  by_cases hi : i ≥ 0
  · rw [if_pos hi, if_pos hi]
    exact hrem i
  · rw [if_neg hi, if_neg hi, hrem i]
    obtain ⟨h1, h2, _⟩ := tmod_of_neg_bounds (Int.lt_of_not_ge hi) hb
    have hadd : add64 (m : Int) (i.tmod (m : Int)) = some ((m : Int) + i.tmod (m : Int)) := by
      unfold add64
      exact if_pos ⟨by omega, by omega⟩
    simp only [Option.some_bind, hadd]
    exact hrem _

/-- C19: fixed-width agreement for `circulant_boundary`.  With 64-bit indices
and dimensions and the cast `(signed)m` truncating to 32 bits, for every `m`
with `0 < m ≤ 2^31 - 1` and every `i` in the 64-bit signed range every
intermediate operation is defined and the result is the mathematical `i mod m`.
The bound on `m` is needed: at `m = 2^31` the cast turns `m` into `-2^31` and
the index -1 is wrapped to -1 instead of `2^31 - 1`; at `m = 2^32` the cast
gives 0 and the remainder is undefined. -/
theorem circulant_boundary64_agrees :
    (∀ (i : Int) (m : Nat), 0 < m → m ≤ 2147483647 →
        -9223372036854775808 ≤ i → i < 9223372036854775808 →
        circulant_boundary64 i m = some (i % (m : Int))) ∧
      (castSigned 2147483648 = -2147483648 ∧
        circulant_boundary64 (-1) 2147483648 = some (-1) ∧
        (-1 : Int) % ((2147483648 : Nat) : Int) = 2147483647) ∧
      (castSigned 4294967296 = 0 ∧ circulant_boundary64 (-1) 4294967296 = none ∧
        circulant_boundary64 1 4294967296 = none) := by
  refine ⟨?_, by decide, by decide⟩
  intro i m hm hmax _ _
  rw [circulant_boundary64_eq i m hm hmax, circulant_boundary_eq_emod i m hm]

/-- An instance at `m = 2^31 - 1`, the largest dimension covered, and the most
negative 64-bit index. -/
theorem circulant_boundary64_agrees_witness :
    0 < 2147483647 ∧ 2147483647 ≤ 2147483647 ∧
      (-9223372036854775808 : Int) ≤ -9223372036854775808 ∧
      (-9223372036854775808 : Int) < 9223372036854775808 ∧
      circulant_boundary64 (-9223372036854775808) 2147483647 =
        some ((-9223372036854775808 : Int) % ((2147483647 : Nat) : Int)) :=
  ⟨by decide, by decide, by decide, by decide,
    circulant_boundary64_agrees.1 (-9223372036854775808) 2147483647
      (by decide) (by decide) (by decide) (by decide)⟩

/-! ## Fixed-width agreement for `neumann_boundary` -/

/-- A value below `2^63` is left unchanged by the conversion to the signed
type. -/
theorem toSigned64_of_le (n : Nat) (h : n ≤ 9223372036854775807) :
    toSigned64 n = (n : Int) := by
  unfold toSigned64
  have e : n % 18446744073709551616 = n := Nat.mod_eq_of_lt (by omega)
  rw [e]
  dsimp only
  exact if_pos (by omega)

/-- A non-negative signed value is left unchanged by the conversion to the
unsigned type. -/
theorem toUnsigned64_of_nonneg (a : Int) (h0 : 0 ≤ a) (h1 : a ≤ 9223372036854775807) :
    toUnsigned64 a = a :=
  Int.emod_eq_of_lt h0 (by omega)

/-- With a positive divisor the 64-bit remainder is defined. -/
theorem rem64_of_pos (a b : Int) (hb : 0 < b) : rem64 a b = some (a.tmod b) := by
  unfold rem64
  rw [if_neg (by omega), if_neg (by omega)]

/-- A difference inside the 64-bit range is defined. -/
theorem sub64_of_range (a b : Int) (h0 : -9223372036854775808 ≤ a - b)
    (h1 : a - b ≤ 9223372036854775807) : sub64 a b = some (a - b) := by
  unfold sub64
  exact if_pos ⟨h0, by omega⟩

/-- The fold of `neumann_boundary64`: for `0 < b ≤ 2^63 - 1` and an index
above `INT64_MIN` every operation is defined and the folded value is the
Euclidean remainder of `i` by `b`. -/
theorem neumann_fold64_eq (i b : Int) (hb : 0 < b) (hb1 : b ≤ 9223372036854775807)
    (hlo : -9223372036854775808 < i) (hhi : i ≤ 9223372036854775807) :
    (if i < 0 then
        (neg64 i).bind fun n =>
          (sub64 n 1).bind fun k =>
            (rem64 k b).bind fun r =>
              (sub64 b r).bind fun d =>
                sub64 d 1
      else rem64 i b) =
      some (if i < 0 then b - ((-i - 1).tmod b) - 1 else i.tmod b) := by
  by_cases hi : i < 0
  · rw [if_pos hi, if_pos hi]
    have hn : neg64 i = some (-i) := by
      unfold neg64
      exact if_neg (by omega)
    have hk : sub64 (-i) 1 = some (-i - 1) := sub64_of_range _ _ (by omega) (by omega)
    have hr := tmod_of_nonneg (a := -i - 1) (b := b) (by omega) hb
    have r0 := Int.emod_nonneg (-i - 1) (Int.ne_of_gt hb)
    have r1 := Int.emod_lt_of_pos (-i - 1) hb
    have hd : sub64 b ((-i - 1).tmod b) = some (b - (-i - 1).tmod b) :=
      sub64_of_range _ _ (by omega) (by omega)
    have he : sub64 (b - (-i - 1).tmod b) 1 = some (b - (-i - 1).tmod b - 1) :=
      sub64_of_range _ _ (by omega) (by omega)
    simp only [hn, hk, rem64_of_pos _ b hb, hd, he, Option.some_bind]
  · rw [if_neg hi, if_neg hi]
    exact rem64_of_pos i b hb

/-- The reflection of `neumann_boundary64`: for a folded value `0 ≤ j < b`
with `b ≤ 2^63 - 1` the comparison is the one between integers and the
reflected value is defined. -/
theorem neumann_reflect64_eq (m : Nat) (b j : Int) (hb1 : b ≤ 9223372036854775807)
    (hj0 : 0 ≤ j) (hj1 : j < b) :
    (if (m : Int) ≤ toUnsigned64 j then (sub64 b j).bind fun d => sub64 d 1 else some j) =
      some (if (m : Int) ≤ j then b - j - 1 else j) := by
  rw [toUnsigned64_of_nonneg j hj0 (by omega)]
  by_cases h : (m : Int) ≤ j
  · rw [if_pos h, if_pos h, sub64_of_range b j (by omega) (by omega)]
    exact sub64_of_range (b - j) 1 (by omega) (by omega)
  · rw [if_neg h, if_neg h]

/-- On dimensions `0 < m ≤ 2^62 - 1` and indices `INT64_MIN < i ≤ INT64_MAX`
every operation of the fixed-width function is defined and its result is that
of the function read over the integers. -/
theorem neumann_boundary64_eq (i : Int) (m : Nat) (hm : 0 < m)
    (hmax : m ≤ 4611686018427387903)
    (hlo : -9223372036854775808 < i) (hhi : i ≤ 9223372036854775807) :
    neumann_boundary64 i m = some (neumann_boundary i m) := by
  have hb : (0 : Int) < ((m * 2 : Nat) : Int) := by
    have : 0 < m * 2 := by omega
    exact_mod_cast this
  have hb1 : ((m * 2 : Nat) : Int) ≤ 9223372036854775807 := by
    have : m * 2 ≤ 9223372036854775807 := by omega
    exact_mod_cast this
  have hf := neumann_fold_eq_emod i m hm
  have j0 := Int.emod_nonneg i (Int.ne_of_gt hb)
  have j1 := Int.emod_lt_of_pos i hb
  unfold neumann_boundary64 neumann_boundary
  rw [toSigned64_of_le (m * 2) (by omega)]
  dsimp only
  rw [neumann_fold64_eq i _ hb hb1 hlo hhi, hf, Option.some_bind]
  exact neumann_reflect64_eq m _ _ hb1 j0 j1

/-! ## Range, congruence, fixed points and period of `circulant_boundary`

The statements are about `circulant_boundary64`.  The index ranges over the
64-bit signed values and the dimension over the values the cast `(signed)m`
leaves unchanged. -/

/-- C1, as stated, fails: at `m = 2^31` the cast turns `m` into `-2^31` and the
index -1 is wrapped to -1, which is not in `[0, m)`. -/
theorem circulant_boundary64_range_as_stated_fails :
    circulant_boundary64 (-1) 2147483648 = some (-1) ∧
      ¬ ∃ r : Int, circulant_boundary64 (-1) 2147483648 = some r ∧
          0 ≤ r ∧ r < ((2147483648 : Nat) : Int) := by
  have h : circulant_boundary64 (-1) 2147483648 = some (-1) := by decide
  refine ⟨h, ?_⟩
  rintro ⟨r, hr, h0, _⟩
  rw [h] at hr
  cases hr
  omega

/-- C1, amended: under the circulant mode, for every dimension
`0 < m ≤ 2^31 - 1` and every index `i` in the 64-bit signed range, the wrapped
index is defined and lies in `[0, m)`. -/
theorem circulant_boundary64_range (i : Int) (m : Nat) (hm : 0 < m) (hmax : m ≤ 2147483647)
    (_hlo : -9223372036854775808 ≤ i) (_hhi : i ≤ 9223372036854775807) :
    ∃ r : Int, circulant_boundary64 i m = some r ∧ 0 ≤ r ∧ r < (m : Int) := by
  have hb : (0 : Int) < (m : Int) := by exact_mod_cast hm
  refine ⟨i % (m : Int), ?_, Int.emod_nonneg i (Int.ne_of_gt hb), Int.emod_lt_of_pos i hb⟩
  rw [circulant_boundary64_eq i m hm hmax, circulant_boundary_eq_emod i m hm]

/-- An instance at `m = 2^31 - 1`, `i = -5`. -/
theorem circulant_boundary64_range_witness :
    0 < 2147483647 ∧ 2147483647 ≤ 2147483647 ∧
      (-9223372036854775808 : Int) ≤ -5 ∧ (-5 : Int) ≤ 9223372036854775807 ∧
      ∃ r : Int, circulant_boundary64 (-5) 2147483647 = some r ∧
        0 ≤ r ∧ r < ((2147483647 : Nat) : Int) :=
  ⟨by decide, by decide, by decide, by decide,
    circulant_boundary64_range (-5) 2147483647 (by decide) (by decide) (by decide) (by decide)⟩

/-- C2, as stated, fails: at `m = 3000000000` the index 3000000001 is wrapped to
410065409, and `m` does not divide `410065409 - 3000000001`; at `m = 2^31` the
index -1 is wrapped to -1, not to the non-negative remainder `2^31 - 1`. -/
theorem circulant_boundary64_congruent_as_stated_fails :
    (circulant_boundary64 3000000001 3000000000 = some 410065409 ∧
        ¬ ∃ r : Int, circulant_boundary64 3000000001 3000000000 = some r ∧
            ((3000000000 : Nat) : Int) ∣ r - 3000000001) ∧
      (circulant_boundary64 (-1) 2147483648 = some (-1) ∧
        (-1 : Int) % ((2147483648 : Nat) : Int) = 2147483647) := by
  have h : circulant_boundary64 3000000001 3000000000 = some 410065409 := by decide
  refine ⟨⟨h, ?_⟩, by decide, by decide⟩
  rintro ⟨r, hr, hd⟩
  rw [h] at hr
  cases hr
  exact absurd hd (by decide)

/-- C2, amended: under the circulant mode, for every dimension
`0 < m ≤ 2^31 - 1` and every index `i` in the 64-bit signed range, the wrapped
index is defined, `m` divides its difference with `i`, and it is the
mathematical non-negative remainder of `i` by `m`, also for negative `i`. -/
theorem circulant_boundary64_congruent (i : Int) (m : Nat) (hm : 0 < m)
    (hmax : m ≤ 2147483647)
    (_hlo : -9223372036854775808 ≤ i) (_hhi : i ≤ 9223372036854775807) :
    ∃ r : Int, circulant_boundary64 i m = some r ∧ (m : Int) ∣ r - i ∧ r = i % (m : Int) := by
  refine ⟨i % (m : Int), ?_, ?_, rfl⟩
  · rw [circulant_boundary64_eq i m hm hmax, circulant_boundary_eq_emod i m hm]
  · have h := Int.emod_add_ediv i (m : Int)
    exact ⟨-(i / (m : Int)), by linarith⟩

/-- An instance at `m = 2^31 - 1` and the most negative index. -/
theorem circulant_boundary64_congruent_witness :
    0 < 2147483647 ∧ 2147483647 ≤ 2147483647 ∧
      (-9223372036854775808 : Int) ≤ -9223372036854775808 ∧
      (-9223372036854775808 : Int) ≤ 9223372036854775807 ∧
      ∃ r : Int, circulant_boundary64 (-9223372036854775808) 2147483647 = some r ∧
        ((2147483647 : Nat) : Int) ∣ r - (-9223372036854775808) ∧
        r = (-9223372036854775808 : Int) % ((2147483647 : Nat) : Int) :=
  ⟨by decide, by decide, by decide, by decide,
    circulant_boundary64_congruent (-9223372036854775808) 2147483647
      (by decide) (by decide) (by decide) (by decide)⟩

/-- C5, as stated, fails: at `m = 2^31` the index -1 is wrapped to -1 and the
index `-1 + m` to `2^31 - 1`. -/
theorem circulant_boundary64_periodic_as_stated_fails :
    circulant_boundary64 (-1 + ((2147483648 : Nat) : Int)) 2147483648 = some 2147483647 ∧
      circulant_boundary64 (-1) 2147483648 = some (-1) ∧
      ¬ (circulant_boundary64 (-1 + ((2147483648 : Nat) : Int)) 2147483648 =
          circulant_boundary64 (-1) 2147483648) := by
  decide

/-- C5, amended: under the circulant mode, for every dimension
`0 < m ≤ 2^31 - 1` and every index `i` such that `i` and `i + m` are in the
64-bit signed range, both calls are defined and return the same value, also
when `i < 0 ≤ i + m` and the two calls take different branches. -/
theorem circulant_boundary64_periodic (i : Int) (m : Nat) (hm : 0 < m)
    (hmax : m ≤ 2147483647)
    (_hlo : -9223372036854775808 ≤ i) (_hhi : i + (m : Int) ≤ 9223372036854775807) :
    ∃ r : Int, circulant_boundary64 (i + (m : Int)) m = some r ∧
      circulant_boundary64 i m = some r := by
  refine ⟨i % (m : Int), ?_, ?_⟩
  · rw [circulant_boundary64_eq _ m hm hmax, circulant_boundary_eq_emod _ m hm,
      Int.add_emod_self]
  · rw [circulant_boundary64_eq _ m hm hmax, circulant_boundary_eq_emod _ m hm]

/-- An instance at `m = 4`, `i = -3`: the two calls take different branches. -/
theorem circulant_boundary64_periodic_witness :
    0 < 4 ∧ 4 ≤ 2147483647 ∧ (-9223372036854775808 : Int) ≤ -3 ∧
      (-3 : Int) + ((4 : Nat) : Int) ≤ 9223372036854775807 ∧
      ∃ r : Int, circulant_boundary64 (-3 + ((4 : Nat) : Int)) 4 = some r ∧
        circulant_boundary64 (-3) 4 = some r :=
  ⟨by decide, by decide, by decide, by decide,
    circulant_boundary64_periodic (-3) 4 (by decide) (by decide) (by decide) (by decide)⟩

/-! ## Range, period, reference, mirror and unit step of `neumann_boundary`

The statements are about `neumann_boundary64`.  The dimension ranges over
`0 < m ≤ 2^62 - 1`, for which `m*2` fits the signed `m2`, and the index over
`INT64_MIN < i ≤ INT64_MAX`, for which `-i` is defined. -/

/-- C3, as stated, fails: at `m = 2^64 - 1` the index -1 is wrapped to -3; at
`m = 2^62` the index -1 overflows `m2 - 0 - 1`, at `m = 2^63` the modulus `m2` is
zero, and at `i = INT64_MIN` the negation `-i` is undefined. -/
theorem neumann_boundary64_range_as_stated_fails :
    (neumann_boundary64 (-1) 18446744073709551615 = some (-3) ∧
        ¬ ∃ r : Int, neumann_boundary64 (-1) 18446744073709551615 = some r ∧
            0 ≤ r ∧ r < ((18446744073709551615 : Nat) : Int)) ∧
      neumann_boundary64 (-1) 4611686018427387904 = none ∧
      neumann_boundary64 0 9223372036854775808 = none ∧
      neumann_boundary64 (-9223372036854775808) 4 = none := by
  have h : neumann_boundary64 (-1) 18446744073709551615 = some (-3) := by decide
  refine ⟨⟨h, ?_⟩, by decide, by decide, by decide⟩
  rintro ⟨r, hr, h0, _⟩
  rw [h] at hr
  cases hr
  omega

/-- C3, amended: under the Neumann mode, for every dimension
`0 < m ≤ 2^62 - 1` and every index `i` with `INT64_MIN < i ≤ INT64_MAX`, the
wrapped index is defined and lies in `[0, m)`. -/
theorem neumann_boundary64_range (i : Int) (m : Nat) (hm : 0 < m)
    (hmax : m ≤ 4611686018427387903)
    (hlo : -9223372036854775808 < i) (hhi : i ≤ 9223372036854775807) :
    ∃ r : Int, neumann_boundary64 i m = some r ∧ 0 ≤ r ∧ r < (m : Int) :=
  ⟨neumann_boundary i m, neumann_boundary64_eq i m hm hmax hlo hhi,
    neumann_boundary_int_range i m hm⟩

/-- An instance at the largest dimension covered, `m = 2^62 - 1`, and the
smallest index covered, `i = INT64_MIN + 1`. -/
theorem neumann_boundary64_range_witness :
    0 < 4611686018427387903 ∧ 4611686018427387903 ≤ 4611686018427387903 ∧
      (-9223372036854775808 : Int) < -9223372036854775807 ∧
      (-9223372036854775807 : Int) ≤ 9223372036854775807 ∧
      ∃ r : Int, neumann_boundary64 (-9223372036854775807) 4611686018427387903 = some r ∧
        0 ≤ r ∧ r < ((4611686018427387903 : Nat) : Int) :=
  ⟨by decide, by decide, by decide, by decide,
    neumann_boundary64_range (-9223372036854775807) 4611686018427387903
      (by decide) (by decide) (by decide) (by decide)⟩

/-- C6, as stated, fails: at `m = 2^62 + 2^61` the index `-2^62 - 1` is wrapped to
0 and the index shifted by `2m`, which is `2^63 - 1`, to `2^62 - 1`. -/
theorem neumann_boundary64_periodic_as_stated_fails :
    neumann_boundary64 (-4611686018427387905) 6917529027641081856 = some 0 ∧
      neumann_boundary64 (-4611686018427387905 + 2 * ((6917529027641081856 : Nat) : Int))
        6917529027641081856 = some 4611686018427387903 ∧
      ¬ (neumann_boundary64 (-4611686018427387905 + 2 * ((6917529027641081856 : Nat) : Int))
          6917529027641081856 =
        neumann_boundary64 (-4611686018427387905) 6917529027641081856) := by
  decide

/-- C6, amended: under the Neumann mode, for every dimension
`0 < m ≤ 2^62 - 1` and every index `i` with `INT64_MIN < i` and
`i + 2m ≤ INT64_MAX`, both calls are defined and return the same value, also
when `i < 0 ≤ i + 2m` and the two calls take different branches. -/
theorem neumann_boundary64_periodic (i : Int) (m : Nat) (hm : 0 < m)
    (hmax : m ≤ 4611686018427387903)
    (hlo : -9223372036854775808 < i) (hhi : i + 2 * (m : Int) ≤ 9223372036854775807) :
    ∃ r : Int, neumann_boundary64 (i + 2 * (m : Int)) m = some r ∧
      neumann_boundary64 i m = some r := by
  have hb : (0 : Int) < (m : Int) := by exact_mod_cast hm
  refine ⟨neumann_boundary i m, ?_, neumann_boundary64_eq i m hm hmax hlo (by omega)⟩
  rw [neumann_boundary64_eq _ m hm hmax (by omega) hhi, neumann_boundary_int_period i m hm]

/-- An instance at `m = 4`, `i = -5`: the two calls take different branches. -/
theorem neumann_boundary64_periodic_witness :
    0 < 4 ∧ 4 ≤ 4611686018427387903 ∧ (-9223372036854775808 : Int) < -5 ∧
      (-5 : Int) + 2 * ((4 : Nat) : Int) ≤ 9223372036854775807 ∧
      ∃ r : Int, neumann_boundary64 (-5 + 2 * ((4 : Nat) : Int)) 4 = some r ∧
        neumann_boundary64 (-5) 4 = some r :=
  ⟨by decide, by decide, by decide, by decide,
    neumann_boundary64_periodic (-5) 4 (by decide) (by decide) (by decide) (by decide)⟩

/-- C16, as stated, fails: at `m = 2^62 + 1` the index `INT64_MAX` is wrapped to
1 where the reference definition gives 2 (the product `m*2` stored in `m2` is
negative); at `m = 2^62` the index -1 is undefined where the reference gives
0. -/
theorem neumann_boundary64_eq_reference_as_stated_fails :
    (neumann_boundary64 9223372036854775807 4611686018427387905 = some 1 ∧
        neumann_reference 9223372036854775807 4611686018427387905 = 2 ∧
        ¬ (neumann_boundary64 9223372036854775807 4611686018427387905 =
            some (neumann_reference 9223372036854775807 4611686018427387905))) ∧
      (neumann_boundary64 (-1) 4611686018427387904 = none ∧
        neumann_reference (-1) 4611686018427387904 = 0) := by
  decide

/-- C16, amended: for every dimension `0 < m ≤ 2^62 - 1` and every index `i`
with `INT64_MIN < i ≤ INT64_MAX`, `neumann_boundary` is defined and equals the
reference definition of reflective wrapping; in particular, for `i < 0` the
fold `m2 - ((-i-1) % m2) - 1` of the C text is defined and is the non-negative
remainder of `i` by `2m`. -/
theorem neumann_boundary64_eq_reference (i : Int) (m : Nat) (hm : 0 < m)
    (hmax : m ≤ 4611686018427387903)
    (hlo : -9223372036854775808 < i) (hhi : i ≤ 9223372036854775807) :
    neumann_boundary64 i m = some (neumann_reference i m) ∧
      (i < 0 →
        ((neg64 i).bind fun n =>
          (sub64 n 1).bind fun k =>
            (rem64 k (2 * (m : Int))).bind fun r =>
              (sub64 (2 * (m : Int)) r).bind fun d =>
                sub64 d 1) = some (i % (2 * (m : Int)))) := by
  have hb : (0 : Int) < 2 * (m : Int) := by
    have : (0 : Int) < (m : Int) := by exact_mod_cast hm
    omega
  have hb1 : 2 * (m : Int) ≤ 9223372036854775807 := by
    have : (m : Int) ≤ 4611686018427387903 := by exact_mod_cast hmax
    omega
  have hr := neumann_boundary_int_eq_reference i m hm
  constructor
  · rw [neumann_boundary64_eq i m hm hmax hlo hhi, hr.1]
  · intro hi
    have hf := neumann_fold64_eq i (2 * (m : Int)) hb hb1 hlo hhi
    rw [if_pos hi, if_pos hi, hr.2 hi] at hf
    exact hf

/-- An instance at `m = 4`, `i = -6`: a negative index whose fold is reflected. -/
theorem neumann_boundary64_eq_reference_witness :
    0 < 4 ∧ 4 ≤ 4611686018427387903 ∧ (-9223372036854775808 : Int) < -6 ∧
      (-6 : Int) ≤ 9223372036854775807 ∧ (-6 : Int) < 0 ∧
      neumann_boundary64 (-6) 4 = some (neumann_reference (-6) 4) ∧
      ((neg64 (-6)).bind fun n =>
        (sub64 n 1).bind fun k =>
          (rem64 k (2 * ((4 : Nat) : Int))).bind fun r =>
            (sub64 (2 * ((4 : Nat) : Int)) r).bind fun d =>
              sub64 d 1) = some ((-6 : Int) % (2 * ((4 : Nat) : Int))) :=
  ⟨by decide, by decide, by decide, by decide, by decide,
    (neumann_boundary64_eq_reference (-6) 4 (by decide) (by decide) (by decide) (by decide)).1,
    (neumann_boundary64_eq_reference (-6) 4 (by decide) (by decide) (by decide) (by decide)).2
      (by decide)⟩

/-- C17, as stated, fails: at `m = 2^64 - 1` the index 0 is wrapped to 0 and its
mirror image -1 to -3; at `m = 2^62 + 2^61` the index `2^62` is wrapped to 0 and
its mirror image `2m - 1 - i`, which is `2^63 - 1`, to `2^62 - 1`; at `m = 4` the
mirror image `-1 - i` of `i = INT64_MAX` is `INT64_MIN`, where the function is
undefined. -/
theorem neumann_boundary64_mirror_as_stated_fails :
    (neumann_boundary64 0 18446744073709551615 = some 0 ∧
        neumann_boundary64 (-1 - 0) 18446744073709551615 = some (-3) ∧
        ¬ (neumann_boundary64 (-1 - 0) 18446744073709551615 =
            neumann_boundary64 0 18446744073709551615)) ∧
      (neumann_boundary64 4611686018427387904 6917529027641081856 = some 0 ∧
        neumann_boundary64
          (2 * ((6917529027641081856 : Nat) : Int) - 1 - 4611686018427387904)
          6917529027641081856 = some 4611686018427387903 ∧
        ¬ (neumann_boundary64
            (2 * ((6917529027641081856 : Nat) : Int) - 1 - 4611686018427387904)
            6917529027641081856 =
          neumann_boundary64 4611686018427387904 6917529027641081856)) ∧
      (neumann_boundary64 9223372036854775807 4 = some 0 ∧
        neumann_boundary64 (-1 - 9223372036854775807) 4 = none) := by
  decide

/-- C17, amended: for every dimension `0 < m ≤ 2^62 - 1` and every index `i`
with `INT64_MIN < i ≤ INT64_MAX`: when `-1 - i` is above `INT64_MIN` the calls at
`-1 - i` and at `i` are both defined and return the same value, and when
`2m - 1 - i` is at most `INT64_MAX` the same holds of the calls at `2m - 1 - i`
and at `i`. -/
theorem neumann_boundary64_mirror (i : Int) (m : Nat) (hm : 0 < m)
    (hmax : m ≤ 4611686018427387903)
    (hlo : -9223372036854775808 < i) (hhi : i ≤ 9223372036854775807) :
    (-9223372036854775808 < -1 - i →
        ∃ r : Int, neumann_boundary64 (-1 - i) m = some r ∧ neumann_boundary64 i m = some r) ∧
      (2 * (m : Int) - 1 - i ≤ 9223372036854775807 →
        ∃ r : Int, neumann_boundary64 (2 * (m : Int) - 1 - i) m = some r ∧
          neumann_boundary64 i m = some r) := by
  have hb : (0 : Int) < (m : Int) := by exact_mod_cast hm
  have hr := neumann_boundary_int_mirror i m hm
  have hi := neumann_boundary64_eq i m hm hmax hlo hhi
  constructor
  · intro h
    refine ⟨neumann_boundary i m, ?_, hi⟩
    rw [neumann_boundary64_eq _ m hm hmax h (by omega), hr.1]
  · intro h
    refine ⟨neumann_boundary i m, ?_, hi⟩
    rw [neumann_boundary64_eq _ m hm hmax (by omega) h, hr.2]

/-- An instance at `m = 4`, `i = 1`: the mirror images are -2 and 6. -/
theorem neumann_boundary64_mirror_witness :
    0 < 4 ∧ 4 ≤ 4611686018427387903 ∧ (-9223372036854775808 : Int) < 1 ∧
      (1 : Int) ≤ 9223372036854775807 ∧ (-9223372036854775808 : Int) < -1 - 1 ∧
      2 * ((4 : Nat) : Int) - 1 - 1 ≤ 9223372036854775807 ∧
      (∃ r : Int, neumann_boundary64 (-1 - 1) 4 = some r ∧ neumann_boundary64 1 4 = some r) ∧
      (∃ r : Int, neumann_boundary64 (2 * ((4 : Nat) : Int) - 1 - 1) 4 = some r ∧
        neumann_boundary64 1 4 = some r) :=
  ⟨by decide, by decide, by decide, by decide, by decide, by decide,
    (neumann_boundary64_mirror 1 4 (by decide) (by decide) (by decide) (by decide)).1
      (by decide),
    (neumann_boundary64_mirror 1 4 (by decide) (by decide) (by decide) (by decide)).2
      (by decide)⟩

/-- C20, as stated, fails: at `m = 2^62 + 2^61` the index `2^62 - 1` is wrapped to
`2^62 - 1` and the next index to 0, a jump of `2^62 - 1`; and the circulant
value at index `m` is undefined for `m = 2^32`, where the cast gives 0. -/
theorem neumann_boundary64_unit_step_as_stated_fails :
    (neumann_boundary64 4611686018427387903 6917529027641081856 =
          some 4611686018427387903 ∧
        neumann_boundary64 (4611686018427387903 + 1) 6917529027641081856 = some 0 ∧
        ¬ ∃ a b : Int,
            neumann_boundary64 (4611686018427387903 + 1) 6917529027641081856 = some a ∧
            neumann_boundary64 4611686018427387903 6917529027641081856 = some b ∧
            |a - b| ≤ 1) ∧
      circulant_boundary64 ((4294967296 : Nat) : Int) 4294967296 = none := by
  have h0 : neumann_boundary64 4611686018427387903 6917529027641081856 =
      some 4611686018427387903 := by decide
  have h1 : neumann_boundary64 (4611686018427387903 + 1) 6917529027641081856 = some 0 := by
    decide
  refine ⟨⟨h0, h1, ?_⟩, by decide⟩
  rintro ⟨a, b, ha, hb, hab⟩
  rw [h1] at ha
  rw [h0] at hb
  cases ha
  cases hb
  rw [abs_le] at hab
  omega

/-- C20, amended: for every dimension `0 < m ≤ 2^62 - 1` and every index `i`
with `INT64_MIN < i` and `i + 1 ≤ INT64_MAX`, the Neumann values at `i + 1` and
at `i` are defined and differ by at most 1; in contrast, for `m ≤ 2^31 - 1` the
circulant value is `m - 1` at index `m - 1` and 0 at index `m`. -/
theorem neumann_boundary64_unit_step (i : Int) (m : Nat) (hm : 0 < m)
    (hmax : m ≤ 4611686018427387903)
    (hlo : -9223372036854775808 < i) (hhi : i + 1 ≤ 9223372036854775807) :
    (∃ a b : Int, neumann_boundary64 (i + 1) m = some a ∧ neumann_boundary64 i m = some b ∧
        |a - b| ≤ 1) ∧
      (m ≤ 2147483647 →
        circulant_boundary64 ((m : Int) - 1) m = some ((m : Int) - 1) ∧
          circulant_boundary64 (m : Int) m = some 0) := by
  have hs := neumann_boundary_int_step i m hm
  refine ⟨⟨neumann_boundary (i + 1) m, neumann_boundary i m,
    neumann_boundary64_eq _ m hm hmax (by omega) hhi,
    neumann_boundary64_eq _ m hm hmax hlo (by omega), hs.1⟩, ?_⟩
  intro h31
  rw [circulant_boundary64_eq _ m hm h31, circulant_boundary64_eq _ m hm h31, hs.2.1, hs.2.2]
  exact ⟨rfl, rfl⟩

/-- An instance at `m = 4`, `i = 3`: the step across the upper edge. -/
theorem neumann_boundary64_unit_step_witness :
    0 < 4 ∧ 4 ≤ 4611686018427387903 ∧ (-9223372036854775808 : Int) < 3 ∧
      (3 : Int) + 1 ≤ 9223372036854775807 ∧ 4 ≤ 2147483647 ∧
      (∃ a b : Int, neumann_boundary64 (3 + 1) 4 = some a ∧ neumann_boundary64 3 4 = some b ∧
        |a - b| ≤ 1) ∧
      circulant_boundary64 (((4 : Nat) : Int) - 1) 4 = some (((4 : Nat) : Int) - 1) ∧
      circulant_boundary64 ((4 : Nat) : Int) 4 = some 0 :=
  ⟨by decide, by decide, by decide, by decide, by decide,
    (neumann_boundary64_unit_step 3 4 (by decide) (by decide) (by decide) (by decide)).1,
    (neumann_boundary64_unit_step 3 4 (by decide) (by decide) (by decide) (by decide)).2
      (by decide)⟩

/-! ## The worked values on the fixed-width functions -/

/-- At `m = 4` the fixed-width functions return the values of the functions
read over the integers on all ten indices -2, ..., 7. -/
theorem boundary64_worked_values :
    (∀ k : Fin 10, circulant_boundary64 ((k : Int) - 2) 4 =
        some (circulant_boundary ((k : Int) - 2) 4)) ∧
      (∀ k : Fin 10, neumann_boundary64 ((k : Int) - 2) 4 =
        some (neumann_boundary ((k : Int) - 2) 4)) ∧
      circulant_boundary64 (-5) 4 = some (circulant_boundary (-5) 4) := by
  decide

end ShootBoundary
